import Mathlib

/-!
Verification development for the `echo` LLM client library (Go).

The development shallowly embeds the SSE streaming decoder and the
per-provider event translation layer:

* `parseSSEStream` (http.go) is embedded at byte level as `sseLoop` /
  `sseFrames` over flat byte lists, and as `sseLoopC` / `sseFramesChunked`
  over an explicit model of a `bufio.Reader` fed by arbitrary chunk
  boundaries (`CReader`).
* The provider translators (`processAnthropicSSEMessage` in anthropic.go,
  `processGeminiSSEMessage` in google.go, and the inline OpenAI loop in
  openai.go) are embedded at frame granularity.  `json.Unmarshal` is an
  external collaborator (Go standard library); a frame payload is embedded
  as an abstract `Payload`: either empty bytes, bytes that fail to
  unmarshal into any of the target structs (`malformed`), or bytes that
  unmarshal successfully, carrying exactly the fields the translators
  read (`obj`).
* The producing goroutine (`go func() { defer close(ch); ... }`) is
  embedded as a function from its input to the list of channel events it
  performs: a `ChanEv.send` for each `ch <- chunk` in program order,
  followed by one `ChanEv.close` for the deferred `close(ch)`, which Go
  runs exactly once, after the function body returns.

Bytes are embedded as `Nat` (the code only compares bytes, it never does
arithmetic on them).  Go `int` fields are embedded as `Int`.  Strings
produced from bytes (event names, delta text) are embedded as `String`
at frame level and as byte lists at byte level.
-/

/-- Errors produced by the streaming code paths.  Go represents these as
wrapped `error` values built with `fmt.Errorf`; the embedding keeps the
wrapping structure: `readError` is the "read error: %w" wrapper of
`parseSSEStream` (http.go) and of the OpenAI loop, `jsonParse` is a JSON
unmarshal failure (tagged with the context string of the message),
`sseStream` is the "SSE stream error: %w" wrapper added by the producer
goroutines, and `ctxCanceled` is `context.Canceled` as surfaced by a
`Read` on the HTTP body after the supplying context is canceled. -/
inductive GoErr : Type where
  | ctxCanceled : GoErr
  | ioFailure : GoErr
  | readError : GoErr → GoErr
  | jsonParse : String → GoErr
  | sseStream : GoErr → GoErr
deriving DecidableEq, Repr

/-- Embedding of `StreamChunk` (lib.go): `Data string`, `Meta *Metadata`,
`Error error`.  `Metadata` is a string-keyed map; the translators only
ever store `int` values, so it is embedded as an association list in the
construction order of the Go map literal. -/
structure StreamChunk : Type where
  data : String := ""
  meta : Option (List (String × Int)) := none
  error : Option GoErr := none
deriving DecidableEq, Repr

/-- Event performed by a producer goroutine on its output channel:
a send (`ch <- c`) or the (deferred) `close(ch)`. -/
inductive ChanEv : Type where
  | send : StreamChunk → ChanEv
  | close : ChanEv
deriving DecidableEq, Repr

/-- Whether a chunk is an error chunk (its `Error` field is set). -/
def StreamChunk.isErr (c : StreamChunk) : Bool :=
  c.error.isSome

/- ### Byte-level utilities (bytes package, as used by http.go) -/

/-- ASCII whitespace, the byte-level case of the set trimmed by
`bytes.TrimSpace`.  (The streams handled here are ASCII-framed; multi-byte
Unicode spaces do not occur in SSE framing.) -/
def isSpaceByte (b : Nat) : Bool :=
  b = 32 || b = 9 || b = 10 || b = 13 || b = 11 || b = 12

/-- Embedding of `bytes.TrimSpace` on the byte level. -/
def trimSpaceB (l : List Nat) : List Nat :=
  ((l.dropWhile isSpaceByte).reverse.dropWhile isSpaceByte).reverse

/-- Embedding of `bytes.HasPrefix pat l`-style test: does `l` start with
`pat`? -/
def startsB : List Nat → List Nat → Bool
  | [], _ => true
  | _ :: _, [] => false
  | p :: ps, b :: bs => p = b && startsB ps bs

/-- Bytes of `"event: "` (`eventPrefix` in http.go). -/
def eventPfx : List Nat := [101, 118, 101, 110, 116, 58, 32]

/-- Bytes of `"data: "` (`dataPrefix` in http.go and openai.go). -/
def dataPfx : List Nat := [100, 97, 116, 97, 58, 32]

/-- Bytes of `"[DONE]"` (`doneMarker` in http.go, used by openai.go). -/
def doneB : List Nat := [91, 68, 79, 78, 69, 93]

/- ### Line splitting (bufio.Reader.ReadBytes on a flat stream) -/

/-- One `reader.ReadBytes('\n')` step on a flat byte stream: returns the
line up to and including the newline together with `some rest`, or, when
no newline remains, all remaining bytes together with `none` (the
`io.EOF` case, in which `ReadBytes` returns the bytes read so far and the
error). -/
def splitNL : List Nat → List Nat × Option (List Nat)
  | [] => ([], none)
  | b :: bs =>
    if b = 10 then ([10], some bs)
    else
      let p := splitNL bs
      (b :: p.1, p.2)

theorem splitNL_no_nl {s : List Nat} (h : ¬ 10 ∈ s) : splitNL s = (s, none) := by
  induction s with
  | nil => rfl
  | cons b bs ih =>
    simp only [List.mem_cons, not_or] at h
    have hb : ¬ b = 10 := fun hb => h.1 hb.symm
    simp [splitNL, hb, ih h.2]

theorem splitNL_some {s l r : List Nat} (h : splitNL s = (l, some r)) :
    s = l ++ r ∧ l.length ≠ 0 := by
  induction s generalizing l r with
  | nil => simp [splitNL] at h
  | cons b bs ih =>
    by_cases hb : b = 10
    · simp [splitNL, hb] at h
      simp [← h.1, ← h.2, hb]
    · simp only [splitNL, hb, if_false] at h
      rcases hl : splitNL bs with ⟨l', o⟩
      rw [hl] at h
      cases o with
      | none => simp at h
      | some r' =>
        simp only [Prod.mk.injEq, Option.some.injEq] at h
        obtain ⟨h1, h2⟩ := h
        obtain ⟨ha, _⟩ := ih (by rw [hl, h2])
        subst h1
        simp [ha]

theorem splitNL_append_some {s t l r : List Nat} (h : splitNL s = (l, some r)) :
    splitNL (s ++ t) = (l, some (r ++ t)) := by
  induction s generalizing l r with
  | nil => simp [splitNL] at h
  | cons b bs ih =>
    by_cases hb : b = 10
    · simp [splitNL, hb] at h ⊢
      simp [← h.1, ← h.2]
    · simp only [splitNL, hb, if_false] at h ⊢
      rcases hl : splitNL bs with ⟨l', o⟩
      rw [hl] at h
      cases o with
      | none => simp at h
      | some r' =>
        simp only [Prod.mk.injEq, Option.some.injEq] at h
        have hr : splitNL (bs ++ t) = (l', some (r' ++ t)) := ih hl
        simp only [List.cons_append, List.append_eq, hr]
        simp [← h.1, h.2]

/- ### Generic SSE frame assembler (parseSSEStream, http.go) -/

/-- Embedding of `SSEMessage` (http.go) at byte level: `Event string`
(kept as the bytes the string was built from) and `Data []byte`. -/
structure SSEMessageB : Type where
  event : List Nat
  data : List Nat
deriving DecidableEq, Repr

/-- Per-line state transition of `parseSSEStream` (http.go, loop body for
a successfully read line): given the raw line (including its newline),
the current event name and the data buffer, returns the updated event
name, updated buffer, and the frames emitted by this line (at most one,
on a blank line with a non-empty buffer). -/
def sseLine (line ev buf : List Nat) : List Nat × List Nat × List SSEMessageB :=
  if trimSpaceB line = [] then
    if buf ≠ [] then ([], [], [⟨ev, buf⟩]) else (ev, buf, [])
  else
    let l := trimSpaceB line
    if l = [] then (ev, buf, [])
    else if startsB eventPfx l then (l.drop eventPfx.length, buf, [])
    else if startsB dataPfx l then (ev, buf ++ l.drop dataPfx.length, [])
    else (ev, buf, [])

/-- The read loop of `parseSSEStream` (http.go) on a flat byte stream:
reads lines with `splitNL`, feeds each to `sseLine`, and on `io.EOF`
discards the unterminated trailing bytes and flushes the pending buffer
(if non-empty) as one final frame. -/
def sseLoop (s ev buf : List Nat) : List SSEMessageB :=
  match h : splitNL s with
  | (_, none) => if buf ≠ [] then [⟨ev, buf⟩] else []
  | (line, some rest) =>
    let st := sseLine line ev buf
    st.2.2 ++ sseLoop rest st.1 st.2.1
termination_by s.length
decreasing_by
  have := splitNL_some h
  have hs : s.length = line.length + rest.length := by
    rw [this.1]; simp
  omega

/-- The sequence of frames `parseSSEStream` hands to its handler when the
whole body is the flat byte stream `s`. -/
def sseFrames (s : List Nat) : List SSEMessageB :=
  sseLoop s [] []

/- ### Chunked reader model (bufio.Reader over an HTTP body) -/

/-- Model of a `bufio.Reader` wrapped around an HTTP response body that
delivers its bytes in successive `Read` calls: `buf` holds bytes already
obtained from the body but not yet consumed, `pend` is the list of the
remaining `Read` results (the chunking of the rest of the body), after
which the body reports `io.EOF`. -/
structure CReader : Type where
  buf : List Nat
  pend : List (List Nat)
deriving DecidableEq, Repr

/-- All bytes a reader will ever deliver, in order. -/
def CReader.toBytes (r : CReader) : List Nat :=
  r.buf ++ r.pend.flatten

/-- Pull one byte from the buffered/chunked reader, refilling the buffer
from the next `Read` result when it runs dry; `none` is `io.EOF`. -/
def readByteC : List Nat → List (List Nat) → Option (Nat × CReader)
  | b :: bs, p => some (b, ⟨bs, p⟩)
  | [], [] => none
  | [], c :: cs => readByteC c cs
termination_by _ p => p.length

theorem readByteC_none {buf : List Nat} {p : List (List Nat)}
    (h : readByteC buf p = none) : buf ++ p.flatten = [] := by
  induction p generalizing buf with
  | nil =>
    cases buf with
    | nil => simp
    | cons b bs => simp [readByteC] at h
  | cons c cs ih =>
    cases buf with
    | nil =>
      rw [readByteC] at h
      simpa using ih h
    | cons b bs => simp [readByteC] at h

theorem readByteC_some {buf : List Nat} {p : List (List Nat)} {b : Nat}
    {r : CReader} (h : readByteC buf p = some (b, r)) :
    buf ++ p.flatten = b :: r.toBytes := by
  induction p generalizing buf with
  | nil =>
    cases buf with
    | nil => simp [readByteC] at h
    | cons x xs =>
      rw [readByteC] at h
      simp only [Option.some.injEq, Prod.mk.injEq] at h
      simp [← h.1, ← h.2, CReader.toBytes]
  | cons c cs ih =>
    cases buf with
    | nil =>
      rw [readByteC] at h
      simpa using ih h
    | cons x xs =>
      rw [readByteC] at h
      simp only [Option.some.injEq, Prod.mk.injEq] at h
      simp [← h.1, ← h.2, CReader.toBytes]

theorem readByteC_some_length {buf : List Nat} {p : List (List Nat)} {b : Nat}
    {r : CReader} (h : readByteC buf p = some (b, r)) :
    r.toBytes.length + 1 = buf.length + p.flatten.length := by
  have hb := readByteC_some h
  have hl := congrArg List.length hb
  simp only [List.length_append, List.length_cons] at hl
  omega

/-- One `reader.ReadBytes('\n')` step on the chunked reader: the line up
to and including the newline with `some` updated reader, or all remaining
bytes with `none` for `io.EOF`. -/
def readLineC (r : CReader) : List Nat × Option CReader :=
  match h : readByteC r.buf r.pend with
  | none => ([], none)
  | some (b, r') =>
    if b = 10 then ([10], some r')
    else
      let p := readLineC r'
      (b :: p.1, p.2)
termination_by r.toBytes.length
decreasing_by
  have h1 := readByteC_some_length h
  have h2 : r.toBytes.length = r.buf.length + r.pend.flatten.length := by
    simp only [CReader.toBytes, List.length_append]
  omega

/-- `readLineC` computes exactly the `splitNL` of the reader's remaining
bytes: chunk boundaries are invisible to the line reader. -/
theorem readLineC_eq (r : CReader) :
    (readLineC r).1 = (splitNL r.toBytes).1 ∧
      (readLineC r).2.map CReader.toBytes = (splitNL r.toBytes).2 := by
  generalize hn : r.toBytes.length = n
  induction n using Nat.strong_induction_on generalizing r with
  | _ n ih =>
    rw [readLineC.eq_def]
    split
    · next heq =>
      have hb : r.toBytes = [] := readByteC_none heq
      simp [hb, splitNL]
    · next b r' heq =>
      have hb : r.toBytes = b :: r'.toBytes := readByteC_some heq
      by_cases h10 : b = 10
      · simp [hb, splitNL, h10]
      · have hlen : r'.toBytes.length < n := by
          have h1 := readByteC_some_length heq
          have h2 : r.toBytes.length = r.buf.length + r.pend.flatten.length := by
            simp only [CReader.toBytes, List.length_append]
          omega
        have hih := ih r'.toBytes.length hlen r' rfl
        rw [hb]
        simp only [splitNL, h10, if_false]
        constructor
        · simp [hih.1]
        · simp [hih.2]

/-- The read loop of `parseSSEStream` (http.go) over the chunked reader
model: identical loop body to `sseLoop`, but lines come from `readLineC`. -/
def sseLoopC (r : CReader) (ev buf : List Nat) : List SSEMessageB :=
  match h : readLineC r with
  | (_, none) => if buf ≠ [] then [⟨ev, buf⟩] else []
  | (line, some r') =>
    let st := sseLine line ev buf
    st.2.2 ++ sseLoopC r' st.1 st.2.1
termination_by r.toBytes.length
decreasing_by
  have heq := (readLineC_eq r).2
  rw [h] at heq
  rcases hs : splitNL r.toBytes with ⟨l, o⟩
  rw [hs] at heq
  cases o with
  | none => simp at heq
  | some rest =>
    have h2 : r'.toBytes = rest := by
      simpa using heq
    have h3 := congrArg List.length h2
    have hsp := splitNL_some hs
    have hlen := congrArg List.length hsp.1
    simp only [List.length_append] at hlen
    have hne := hsp.2
    omega

/-- The sequence of frames `parseSSEStream` hands to its handler when the
HTTP body delivers its bytes in the given chunks (successive `Read`
results), read through a `bufio.Reader`. -/
def sseFramesChunked (chunks : List (List Nat)) : List SSEMessageB :=
  sseLoopC ⟨[], chunks⟩ [] []

theorem sseLoop_eq_of_none {s l ev buf : List Nat} (h : splitNL s = (l, none)) :
    sseLoop s ev buf = if buf ≠ [] then [⟨ev, buf⟩] else [] := by
  rw [sseLoop.eq_def]
  split
  · rfl
  · next line rest heq =>
    rw [h] at heq
    cases heq

theorem sseLoop_eq_of_some {s line rest : List Nat}
    (h : splitNL s = (line, some rest)) (ev buf : List Nat) :
    sseLoop s ev buf =
      (sseLine line ev buf).2.2 ++
        sseLoop rest (sseLine line ev buf).1 (sseLine line ev buf).2.1 := by
  rw [sseLoop.eq_def]
  split
  · next l heq =>
    rw [h] at heq
    cases heq
  · next l r heq =>
    rw [h] at heq
    cases heq
    rfl

theorem sseLoopC_eq_of_none {r : CReader} {l : List Nat} {ev buf : List Nat}
    (h : readLineC r = (l, none)) :
    sseLoopC r ev buf = if buf ≠ [] then [⟨ev, buf⟩] else [] := by
  rw [sseLoopC.eq_def]
  split
  · rfl
  · next line r' heq =>
    rw [h] at heq
    cases heq

theorem sseLoopC_eq_of_some {r r' : CReader} {line : List Nat} (ev buf : List Nat)
    (h : readLineC r = (line, some r')) :
    sseLoopC r ev buf =
      (sseLine line ev buf).2.2 ++
        sseLoopC r' (sseLine line ev buf).1 (sseLine line ev buf).2.1 := by
  rw [sseLoopC.eq_def]
  split
  · next l heq =>
    rw [h] at heq
    cases heq
  · next l rr heq =>
    rw [h] at heq
    cases heq
    rfl

theorem sseLoopC_eq_sseLoop (r : CReader) (ev buf : List Nat) :
    sseLoopC r ev buf = sseLoop r.toBytes ev buf := by
  generalize hn : r.toBytes.length = n
  induction n using Nat.strong_induction_on generalizing r ev buf with
  | _ n ih =>
    have heq := readLineC_eq r
    rcases h : readLineC r with ⟨line, o⟩
    rw [h] at heq
    rcases hs : splitNL r.toBytes with ⟨l, o'⟩
    rw [hs] at heq
    cases o with
    | none =>
      cases o' with
      | none => rw [sseLoopC_eq_of_none h, sseLoop_eq_of_none hs]
      | some rest => simp at heq
    | some r' =>
      cases o' with
      | none => simp at heq
      | some rest =>
        obtain ⟨h1, h2⟩ := heq
        simp only at h1
        subst h1
        have hrest : r'.toBytes = rest := by
          simpa using h2
        have hlt : rest.length < n := by
          obtain ⟨hsplit, hne⟩ := splitNL_some hs
          have hll := congrArg List.length hsplit
          simp only [List.length_append] at hll
          omega
        rw [sseLoopC_eq_of_some ev buf h, sseLoop_eq_of_some hs ev buf]
        rw [ih rest.length hlt r' _ _ (by rw [hrest]), hrest]

theorem splitNL_none {s l : List Nat} (h : splitNL s = (l, none)) :
    l = s ∧ ¬ 10 ∈ s := by
  induction s generalizing l with
  | nil =>
    simp [splitNL] at h
    simp [h]
  | cons b bs ih =>
    by_cases hb : b = 10
    · simp [splitNL, hb] at h
    · simp only [splitNL, hb, if_false] at h
      rcases hl : splitNL bs with ⟨l', o⟩
      rw [hl] at h
      cases o with
      | some r => simp at h
      | none =>
        simp only [Prod.mk.injEq] at h
        obtain ⟨h1, h2⟩ := ih hl
        subst h1
        constructor
        · simp [← h.1]
        · simp only [List.mem_cons, not_or]
          exact ⟨fun hc => hb hc.symm, h2⟩

/-- Appending newline-free bytes to a stream never changes the frames the
assembler emits: the bytes of a final unterminated line are discarded at
`io.EOF` (http.go lines 99-109: the `line` returned together with
`io.EOF` is not processed; only the already-buffered data is flushed). -/
theorem sseLoop_drop_tail {t : List Nat} (ht : ¬ 10 ∈ t) :
    ∀ s ev buf : List Nat, sseLoop (s ++ t) ev buf = sseLoop s ev buf := by
  intro s
  generalize hn : s.length = n
  induction n using Nat.strong_induction_on generalizing s with
  | _ n ih =>
    intro ev buf
    rcases hs : splitNL s with ⟨l, o⟩
    cases o with
    | none =>
      obtain ⟨h1, h2⟩ := splitNL_none hs
      have hst : ¬ 10 ∈ s ++ t := by
        simp only [List.mem_append, not_or]
        exact ⟨h2, ht⟩
      rw [sseLoop_eq_of_none (splitNL_no_nl hst), sseLoop_eq_of_none hs]
    | some rest =>
      have hsome := splitNL_append_some hs (t := t)
      rw [sseLoop_eq_of_some hsome, sseLoop_eq_of_some hs]
      have hlt : rest.length < n := by
        obtain ⟨h1, h2⟩ := splitNL_some hs
        have := congrArg List.length h1
        simp only [List.length_append] at this
        omega
      rw [ih rest.length hlt rest rfl]

/- ### Frame-level model of the translators -/

/-- Abstract view of a frame's `Data []byte` as seen through
`json.Unmarshal` (Go standard library, an external collaborator):
`empty` is a zero-length payload, `malformed` is a payload on which
`json.Unmarshal` fails for every target struct (invalid JSON), and
`obj a` is a payload that unmarshals successfully, where `a` carries
exactly the fields the translators read out of the target structs
(unknown JSON fields are ignored by Go, absent fields are zero-valued,
so one well-formed object decodes into every target struct). -/
inductive Payload (α : Type) : Type where
  | empty : Payload α
  | malformed : Payload α
  | obj : α → Payload α
deriving DecidableEq, Repr

/-- A frame as handed by `parseSSEStream` to a translator: the `Event`
string and the abstract view of the `Data` bytes. -/
structure SSEMessageOf (α : Type) : Type where
  event : String
  data : Payload α
deriving DecidableEq, Repr

/-- The fields of an Anthropic stream-event JSON object read by the
target structs of anthropic.go: `AnthropicStreamEvent.Type`,
`AnthropicMessageStart.Message.Usage`, `AnthropicContentBlockDelta.Delta`
and `AnthropicMessageDelta.Usage` (a pointer, hence optional). -/
structure AnthropicWire : Type where
  type : String := ""
  messageUsageInput : Int := 0
  messageUsageOutput : Int := 0
  deltaType : String := ""
  deltaText : String := ""
  usageOutputTokens : Option Int := none
deriving DecidableEq, Repr

/-- Metadata chunk built by anthropic.go's `message_stop` branches. -/
def anthropicMeta (tin tout : Int) : StreamChunk :=
  { meta := some [("input_tokens", tin), ("output_tokens", tout)] }

/-- Embedding of `processAnthropicSSEMessage` (anthropic.go lines
264-358).  The state is the pair of counters `totalInputTokens`,
`totalOutputTokens` passed by pointer in Go; the result is the updated
counters plus the chunks sent on `ch`, or the error the function returns
(which makes `parseSSEStream` stop and return it).  The outer `match` on
the payload mirrors the possible outcomes of the `json.Unmarshal` calls:
in every branch that unmarshals, `malformed` takes the error path and
`obj` the success path; branches that do not unmarshal ignore it. -/
def processAnthropicSSEMessage (msg : SSEMessageOf AnthropicWire)
    (tin tout : Int) : Except GoErr ((Int × Int) × List StreamChunk) :=
  match msg.data with
  | .empty => .ok ((tin, tout), [])
  | .malformed =>
    match msg.event with
    | "message_start" => .error (.jsonParse "message_start")
    | "content_block_start" => .ok ((tin, tout), [])
    | "content_block_delta" => .error (.jsonParse "content_block_delta")
    | "content_block_stop" => .ok ((tin, tout), [])
    | "message_delta" => .error (.jsonParse "message_delta")
    | "message_stop" => .ok ((tin, tout), [anthropicMeta tin tout])
    | "ping" => .ok ((tin, tout), [])
    | _ => .ok ((tin, tout), [])
  | .obj j =>
    match msg.event with
    | "message_start" => .ok ((j.messageUsageInput, j.messageUsageOutput), [])
    | "content_block_start" => .ok ((tin, tout), [])
    | "content_block_delta" =>
      if j.deltaType = "text_delta" ∧ j.deltaText ≠ "" then
        .ok ((tin, tout), [{ data := j.deltaText }])
      else .ok ((tin, tout), [])
    | "content_block_stop" => .ok ((tin, tout), [])
    | "message_delta" =>
      match j.usageOutputTokens with
      | some o => .ok ((tin, o), [])
      | none => .ok ((tin, tout), [])
    | "message_stop" => .ok ((tin, tout), [anthropicMeta tin tout])
    | "ping" => .ok ((tin, tout), [])
    | _ =>
      match j.type with
      | "content_block_delta" =>
        if j.deltaType = "text_delta" ∧ j.deltaText ≠ "" then
          .ok ((tin, tout), [{ data := j.deltaText }])
        else .ok ((tin, tout), [])
      | "message_delta" =>
        match j.usageOutputTokens with
        | some o => .ok ((tin, o), [])
        | none => .ok ((tin, tout), [])
      | "message_stop" => .ok ((tin, tout), [anthropicMeta tin tout])
      | _ => .ok ((tin, tout), [])

/-- The fields of a Gemini stream-chunk JSON object read by google.go's
`GeminiStreamResponse`. -/
structure GeminiPartW : Type where
  text : String
deriving DecidableEq, Repr

structure GeminiCandidateW : Type where
  parts : List GeminiPartW
deriving DecidableEq, Repr

structure GeminiUsageW : Type where
  promptTokenCount : Int
  candidatesTokenCount : Int
  totalTokenCount : Int
deriving DecidableEq, Repr

structure GeminiStreamRespW : Type where
  candidates : List GeminiCandidateW := []
  usageMetadata : Option GeminiUsageW := none
deriving DecidableEq, Repr

/-- Metadata chunk built by google.go from `UsageMetadata`. -/
def geminiMeta (u : GeminiUsageW) : StreamChunk :=
  { meta := some [("total_tokens", u.totalTokenCount),
                  ("prompt_tokens", u.promptTokenCount),
                  ("completion_tokens", u.candidatesTokenCount)] }

/-- Embedding of `processGeminiSSEMessage` (google.go lines 237-270): the
chunks it sends on `ch` for one frame.  The function has no state and
returns nothing to its caller; in `streamCall` the handler wrapping it
always returns `nil`, so a malformed frame sends an error chunk but does
not stop `parseSSEStream`. -/
def processGeminiSSEMessage (msg : SSEMessageOf GeminiStreamRespW) :
    List StreamChunk :=
  match msg.data with
  | .empty => []
  | .malformed => [{ error := some (.jsonParse "gemini") }]
  | .obj r =>
    (match r.candidates with
     | c :: _ =>
       match c.parts with
       | p :: _ => if p.text ≠ "" then [{ data := p.text }] else []
       | [] => []
     | [] => []) ++
    (match r.usageMetadata with
     | some u => [geminiMeta u]
     | none => [])

/- ### The producer goroutines (frame-granular model of parseSSEStream) -/

/-- How the byte stream behind a sequence of complete frames ends: clean
`io.EOF`, or a transport-level read failure carrying the underlying
error (`context.Canceled` when the supplying context was canceled). -/
inductive Tail : Type where
  | eof : Tail
  | rerr : GoErr → Tail
deriving DecidableEq, Repr

/-- The handler loop of `parseSSEStream` at frame granularity: feed each
assembled frame to the handler `h` (which may return an error, making
`parseSSEStream` return it at once); afterwards the result for the list
is the handler state.  Returns the chunks sent and either the final
state or the first handler error. -/
def sseRun {α σ : Type} (h : SSEMessageOf α → σ → Except GoErr (σ × List StreamChunk)) :
    List (SSEMessageOf α) → σ → List StreamChunk × Except GoErr σ
  | [], s => ([], .ok s)
  | m :: ms, s =>
    match h m s with
    | .error e => ([], .error e)
    | .ok (s', cs) =>
      let p := sseRun h ms s'
      (cs ++ p.1, p.2)

/-- Result of `parseSSEStream` on a stream that delivers the given frames
and then ends with `t`: the chunks the handler sent, and the error
`parseSSEStream` returns (`none` for `nil`): a handler error is returned
as is, a read failure is wrapped as "read error: %w" (http.go line 111),
and the unterminated-line flush at `io.EOF` is frame-granular here
(covered at byte level by `sseLoop`). -/
def sseDrive {α σ : Type} (h : SSEMessageOf α → σ → Except GoErr (σ × List StreamChunk))
    (msgs : List (SSEMessageOf α)) (t : Tail) (s : σ) :
    List StreamChunk × Option GoErr :=
  let p := sseRun h msgs s
  match p.2 with
  | .error e => (p.1, some e)
  | .ok _ =>
    match t with
    | .eof => (p.1, none)
    | .rerr e => (p.1, some (.readError e))

/-- The channel-event trace of a producer goroutine of the shape
`go func() { defer close(ch); err := parseSSEStream(...); if err != nil
{ ch <- StreamChunk{Error: SSE stream error: %w} } }()` (anthropic.go
lines 246-258, google.go lines 220-231): sends for all handler chunks in
order, then the terminal error chunk if `parseSSEStream` failed, then
the deferred close. -/
def producerOf (p : List StreamChunk × Option GoErr) : List ChanEv :=
  p.1.map ChanEv.send ++
    (match p.2 with
     | some e => [ChanEv.send { error := some (.sseStream e) }]
     | none => []) ++
    [ChanEv.close]

/-- Handler closure passed by anthropic.go's `streamCall` (lines
251-253) to `parseSSEStream`, with the two counters as the state pair. -/
def anthropicHandler (msg : SSEMessageOf AnthropicWire) (s : Int × Int) :
    Except GoErr ((Int × Int) × List StreamChunk) :=
  processAnthropicSSEMessage msg s.1 s.2

/-- Trace of the Anthropic streaming goroutine (anthropic.go lines
246-258) on a body that delivers the given frames and then ends with
`t`.  The counters start at Go zero values. -/
def anthropicProducer (msgs : List (SSEMessageOf AnthropicWire)) (t : Tail) :
    List ChanEv :=
  producerOf (sseDrive anthropicHandler msgs t ((0 : Int), (0 : Int)))

/-- Handler wrapper used by google.go's `streamCall` (lines 223-226): it
calls `processGeminiSSEMessage` and always returns `nil`. -/
def geminiHandler (msg : SSEMessageOf GeminiStreamRespW) (s : Unit) :
    Except GoErr (Unit × List StreamChunk) :=
  .ok (s, processGeminiSSEMessage msg)

/-- Trace of the Gemini streaming goroutine (google.go lines 220-231). -/
def geminiProducer (msgs : List (SSEMessageOf GeminiStreamRespW)) (t : Tail) :
    List ChanEv :=
  producerOf (sseDrive geminiHandler msgs t ())

/- ### OpenAI streaming loop (openai.go, streamCall lines 232-291) -/

/-- The fields of an OpenAI stream-chunk JSON object read by
`OpenAIStreamResponse` (openai.go lines 194-205). -/
structure OpenAIUsageW : Type where
  promptTokens : Int
  completionTokens : Int
  totalTokens : Int
deriving DecidableEq, Repr

structure OpenAIStreamChoiceW : Type where
  deltaContent : String
deriving DecidableEq, Repr

structure OpenAIStreamRespW : Type where
  choices : List OpenAIStreamChoiceW := []
  usage : Option OpenAIUsageW := none
deriving DecidableEq, Repr

/-- Metadata chunk built by openai.go from a usage-only stream chunk. -/
def openAIMeta (u : OpenAIUsageW) : StreamChunk :=
  { meta := some [("total_tokens", u.totalTokens),
                  ("prompt_tokens", u.promptTokens),
                  ("completion_tokens", u.completionTokens)] }

/-- Chunk selection of openai.go lines 273-289 for one parsed stream
response: a usage-only chunk (usage set, no choices) emits a metadata
chunk; otherwise a non-empty delta content emits a text chunk. -/
def openAIEmit (resp : OpenAIStreamRespW) : List StreamChunk :=
  if resp.usage.isSome ∧ resp.choices = [] then
    match resp.usage with
    | some u => [openAIMeta u]
    | none => []
  else
    match resp.choices with
    | c :: _ => if c.deltaContent ≠ "" then [{ data := c.deltaContent }] else []
    | [] => []

/-- The line loop of openai.go's `streamCall` (lines 237-290) over the
successfully read lines (each without its trailing newline, which
`bytes.TrimSpace` would remove anyway), parameterized by the
`json.Unmarshal` oracle `dec` (`none` = parse failure).  Returns the
chunks sent and whether the loop returned early (`[DONE]` sentinel, or a
JSON parse error, in which case the error chunk is already included). -/
def openAIRun (dec : List Nat → Option OpenAIStreamRespW) :
    List (List Nat) → List StreamChunk × Bool
  | [] => ([], false)
  | l :: ls =>
    let tl := trimSpaceB l
    if tl = [] then openAIRun dec ls
    else if ¬ startsB dataPfx tl then openAIRun dec ls
    else
      let d := tl.drop dataPfx.length
      if d = doneB then ([], true)
      else
        match dec d with
        | none => ([{ error := some (.jsonParse "openai") }], true)
        | some resp =>
          let p := openAIRun dec ls
          (openAIEmit resp ++ p.1, p.2)

/-- Chunks sent by openai.go's `streamCall` goroutine body: if the loop
did not return early, the stream's tail is observed — `io.EOF` breaks
out of the loop silently, a read failure sends a "read error: %w" error
chunk (lines 242-245). -/
def openAILoop (dec : List Nat → Option OpenAIStreamRespW)
    (lines : List (List Nat)) (t : Tail) : List StreamChunk :=
  let p := openAIRun dec lines
  if p.2 then p.1
  else
    match t with
    | .eof => p.1
    | .rerr e => p.1 ++ [{ error := some (.readError e) }]

/-- Trace of the OpenAI streaming goroutine (openai.go lines 232-291):
every `ch <-` in the body, then the deferred `close(ch)`. -/
def openAIProducer (dec : List Nat → Option OpenAIStreamRespW)
    (lines : List (List Nat)) (t : Tail) : List ChanEv :=
  (openAILoop dec lines t).map ChanEv.send ++ [ChanEv.close]

/- ### Message validation (message.go) and request preparation (openai.go) -/

/-- Role constants of message.go. -/
def SystemRole : String := "system"

def AgentRole : String := "agent"

def UserRole : String := "user"

/-- Embedding of `Message` (message.go). -/
structure Message : Type where
  content : String
  role : String
deriving DecidableEq, Repr

/-- The loop of `validateMessages` (message.go lines 41-62) with the
loop index and the two seen-flags made explicit; after the loop, the
`userMessageSeen` check (lines 64-66).  Returns the error message, or
`none` for success. -/
def validateLoop : List Message → Nat → Bool → Bool → Option String
  | [], _, _, userSeen =>
    if !userSeen then some "at least one non-system message is required" else none
  | m :: rest, i, sysSeen, userSeen =>
    if ¬ (m.role = SystemRole ∨ m.role = UserRole ∨ m.role = AgentRole) then
      some "invalid role"
    else if m.role = SystemRole then
      if i > 0 then some "system message must be first in the chain"
      else if sysSeen then some "only one system message allowed"
      else validateLoop rest (i + 1) true userSeen
    else validateLoop rest (i + 1) sysSeen true

/-- Embedding of `validateMessages` (message.go lines 34-68). -/
def validateMessages (messages : List Message) : Option String :=
  if messages = [] then some "message chain cannot be empty"
  else validateLoop messages 0 false false

/-- Embedding of `OpenAIMessage` (openai.go). -/
structure OpenAIMessage : Type where
  role : String
  content : String
deriving DecidableEq, Repr

/-- The fields of `CallConfig` (lib.go) read by `prepareOpenAIRequest`.
`Temperature *float64` is carried opaquely (no claim inspects it). -/
structure CallConfig : Type where
  model : String := ""
  endPoint : String := ""
  temperature : Option Float := none
  maxTokens : Option Int := none
  systemMsg : String := ""

/-- Embedding of `OpenRouterProvider` (openai.go). -/
structure OpenRouterProvider : Type where
  order : List String
  only : List String
  allowFallbacks : Bool

/-- Embedding of `OpenAIRequest` (openai.go). -/
structure OpenAIRequest : Type where
  model : String
  temperature : Option Float
  maxTokens : Option Int
  messages : List OpenAIMessage
  stream : Bool
  streamOptionsIncludeUsage : Option Bool
  provider : Option OpenRouterProvider

/-- Message-conversion fold of `prepareOpenAIRequest` (openai.go lines
73-98): builds the OpenAI-format list and the `systemMessageProcessed`
flag. -/
def convertOpenAIMessages (cfg : CallConfig) :
    List Message → List OpenAIMessage × Bool
  | [] => ([], false)
  | m :: rest =>
    let p := convertOpenAIMessages cfg rest
    if m.role = SystemRole then
      (if cfg.systemMsg = "" then ⟨SystemRole, m.content⟩ :: p.1 else p.1, true)
    else if m.role = UserRole then (⟨"user", m.content⟩ :: p.1, p.2)
    else if m.role = AgentRole then (⟨"assistant", m.content⟩ :: p.1, p.2)
    else p

/-- Embedding of `prepareOpenAIRequest` (openai.go lines 66-144): the
validation gate, message conversion, the `WithSystemMessage` override
(lines 101-114), stream options, and the OpenRouter provider block. -/
def prepareOpenAIRequest (messages : List Message) (streaming : Bool)
    (cfg : CallConfig) : Except String OpenAIRequest :=
  match validateMessages messages with
  | some e => .error ("invalid message chain: " ++ e)
  | none =>
    let p := convertOpenAIMessages cfg messages
    let withSys :=
      if cfg.systemMsg ≠ "" then
        if p.2 then ⟨SystemRole, cfg.systemMsg⟩ :: p.1.tail
        else ⟨SystemRole, cfg.systemMsg⟩ :: p.1
      else p.1
    .ok
      { model := cfg.model
        temperature := cfg.temperature
        maxTokens := cfg.maxTokens
        messages := withSys
        stream := streaming
        streamOptionsIncludeUsage := if streaming then some true else none
        provider :=
          if cfg.endPoint ≠ "" then
            some ⟨(cfg.endPoint.splitOn ","), (cfg.endPoint.splitOn ","), true⟩
          else none }

/- ### Helper lemmas about the producer models -/

theorem sseRun_append_ok {α σ : Type}
    {h : SSEMessageOf α → σ → Except GoErr (σ × List StreamChunk)}
    {xs : List (SSEMessageOf α)} {s s' : σ} {cs : List StreamChunk}
    (hrun : sseRun h xs s = (cs, .ok s')) (ys : List (SSEMessageOf α)) :
    sseRun h (xs ++ ys) s =
      (cs ++ (sseRun h ys s').1, (sseRun h ys s').2) := by
  induction xs generalizing s cs with
  | nil =>
    simp [sseRun] at hrun
    obtain ⟨h1, h2⟩ := hrun
    subst h1
    subst h2
    simp
  | cons m ms ih =>
    simp only [sseRun] at hrun
    simp only [List.cons_append, sseRun]
    cases hm : h m s with
    | error e => simp [hm] at hrun
    | ok p =>
      rcases p with ⟨s1, cs1⟩
      rw [hm] at hrun
      dsimp only at hrun ⊢
      rcases hr : sseRun h ms s1 with ⟨cs2, r⟩
      rw [hr] at hrun
      cases r with
      | error e => simp at hrun
      | ok s2 =>
        simp only [Prod.mk.injEq, Except.ok.injEq] at hrun
        obtain ⟨h1, h2⟩ := hrun
        subst h2
        simp only [List.append_eq]
        rw [ih hr]
        simp [← h1]

theorem sseRun_append_err {α σ : Type}
    {h : SSEMessageOf α → σ → Except GoErr (σ × List StreamChunk)}
    {xs : List (SSEMessageOf α)} {s : σ} {cs : List StreamChunk} {e : GoErr}
    (hrun : sseRun h xs s = (cs, .error e)) (ys : List (SSEMessageOf α)) :
    sseRun h (xs ++ ys) s = (cs, .error e) := by
  induction xs generalizing s cs with
  | nil => simp [sseRun] at hrun
  | cons m ms ih =>
    simp only [sseRun] at hrun
    simp only [List.cons_append, sseRun]
    cases hm : h m s with
    | error e' =>
      rw [hm] at hrun
      simp only [Prod.mk.injEq, Except.error.injEq] at hrun
      simp [← hrun.1, hrun.2]
    | ok p =>
      rcases p with ⟨s1, cs1⟩
      rw [hm] at hrun
      dsimp only at hrun ⊢
      rcases hr : sseRun h ms s1 with ⟨cs2, r⟩
      rw [hr] at hrun
      cases r with
      | ok s2 => simp at hrun
      | error e'' =>
        simp only [Prod.mk.injEq, Except.error.injEq] at hrun
        obtain ⟨h1, h2⟩ := hrun
        subst h2
        simp only [List.append_eq]
        rw [ih hr]
        simp [← h1]

theorem sseRun_total {α : Type} (f : SSEMessageOf α → List StreamChunk)
    (msgs : List (SSEMessageOf α)) :
    sseRun (fun m s => .ok (s, f m)) msgs () =
      ((msgs.map f).flatten, .ok ()) := by
  induction msgs with
  | nil => simp [sseRun]
  | cons m ms ih => simp [sseRun, ih]

theorem sseRun_gemini (msgs : List (SSEMessageOf GeminiStreamRespW)) :
    sseRun geminiHandler msgs () =
      ((msgs.map processGeminiSSEMessage).flatten, .ok ()) := by
  have : geminiHandler = fun m s => .ok (s, processGeminiSSEMessage m) := rfl
  rw [this, sseRun_total]

/-- Shape of every producer trace: some sends, then exactly one close. -/
def closesOnceAfterAll (tr : List ChanEv) : Prop :=
  ∃ cs : List StreamChunk, tr = cs.map ChanEv.send ++ [ChanEv.close]

/-- The trace ends with an error-chunk send immediately before the close. -/
def endsWithErrSend (tr : List ChanEv) : Prop :=
  ∃ (pre : List ChanEv) (c : StreamChunk),
    tr = pre ++ [ChanEv.send c, ChanEv.close] ∧ c.error.isSome = true

theorem producerOf_shape (p : List StreamChunk × Option GoErr) :
    closesOnceAfterAll (producerOf p) := by
  rcases p with ⟨cs, o⟩
  cases o with
  | none => exact ⟨cs, by simp [producerOf]⟩
  | some e =>
    exact ⟨cs ++ [{ error := some (.sseStream e) }], by simp [producerOf]⟩

theorem producerOf_err {p : List StreamChunk × Option GoErr}
    (h : p.2.isSome = true) : endsWithErrSend (producerOf p) := by
  rcases p with ⟨cs, o⟩
  cases o with
  | none => simp at h
  | some e =>
    refine ⟨cs.map ChanEv.send, { error := some (.sseStream e) }, ?_, rfl⟩
    simp [producerOf]

theorem startsB_self_append (p x : List Nat) : startsB p (p ++ x) = true := by
  induction p with
  | nil => rfl
  | cons b bs ih => simp [startsB, ih]

theorem openAILoop_cons (dec : List Nat → Option OpenAIStreamRespW)
    (l : List Nat) (ls : List (List Nat)) (t : Tail) :
    openAILoop dec (l :: ls) t =
      if trimSpaceB l = [] then openAILoop dec ls t
      else if ¬ startsB dataPfx (trimSpaceB l) then openAILoop dec ls t
      else if (trimSpaceB l).drop dataPfx.length = doneB then []
      else
        match dec ((trimSpaceB l).drop dataPfx.length) with
        | none => [{ error := some (.jsonParse "openai") }]
        | some resp => openAIEmit resp ++ openAILoop dec ls t := by
  by_cases h1 : trimSpaceB l = []
  · simp [openAILoop, openAIRun, h1]
  · by_cases h2 : startsB dataPfx (trimSpaceB l)
    · by_cases h3 : (trimSpaceB l).drop dataPfx.length = doneB
      · simp [openAILoop, openAIRun, h1, h2, h3]
      · cases hd : dec ((trimSpaceB l).drop dataPfx.length) with
        | none => simp [openAILoop, openAIRun, h1, h2, h3, hd]
        | some resp =>
          simp only [openAILoop, openAIRun, h1, h2, h3, hd, if_false,
            not_true, ite_false, ite_true, if_neg, eq_self_iff_true]
          rcases hq : openAIRun dec ls with ⟨cs, early⟩
          cases early with
          | true => simp [h1, h2, h3, hd, hq]
          | false =>
            cases t with
            | eof => simp [h1, h2, h3, hd, hq]
            | rerr e => simp [h1, h2, h3, hd, hq]
    · simp [openAILoop, openAIRun, h1, h2]

theorem openAIEmit_no_err {resp : OpenAIStreamRespW} {c : StreamChunk}
    (h : c ∈ openAIEmit resp) : c.error = none := by
  unfold openAIEmit at h
  split at h
  · split at h
    · simp at h
      simp [h, openAIMeta]
    · simp at h
  · split at h
    · split at h
      · simp at h
        simp [h]
      · simp at h
    · simp at h

theorem openAIRun_err (dec : List Nat → Option OpenAIStreamRespW) :
    ∀ (lines : List (List Nat)) (c : StreamChunk),
      c ∈ (openAIRun dec lines).1 → c.error.isSome = true →
      (openAIRun dec lines).1.getLast? = some c ∧
        (openAIRun dec lines).2 = true := by
  intro lines
  induction lines with
  | nil => intro c hc; simp [openAIRun] at hc
  | cons l ls ih =>
    intro c hc herr
    by_cases h1 : trimSpaceB l = []
    · simp only [openAIRun, h1, if_true, ite_true, eq_self_iff_true] at hc ⊢
      exact ih c hc herr
    · by_cases h2 : startsB dataPfx (trimSpaceB l)
      · by_cases h3 : (trimSpaceB l).drop dataPfx.length = doneB
        · simp [openAIRun, h1, h2, h3] at hc
        · cases hd : dec ((trimSpaceB l).drop dataPfx.length) with
          | none =>
            simp [openAIRun, h1, h2, h3, hd] at hc ⊢
            simp [hc]
          | some resp =>
            simp only [openAIRun, h1, h2, h3, hd, if_false, ite_false,
              not_true, ite_true, if_neg] at hc ⊢
            simp only [List.mem_append] at hc
            cases hc with
            | inl hin =>
              have := openAIEmit_no_err hin
              rw [this] at herr
              simp at herr
            | inr hin =>
              obtain ⟨hl, h2'⟩ := ih c hin herr
              constructor
              · rw [List.getLast?_append_of_ne_nil]
                · exact hl
                · intro hne
                  rw [hne] at hin
                  simp at hin
              · exact h2'
      · simp only [openAIRun, h1, h2, if_false, ite_false, not_false_iff,
          ite_true, if_neg] at hc ⊢
        exact ih c hc herr

theorem openAILoop_err_last (dec : List Nat → Option OpenAIStreamRespW)
    (lines : List (List Nat)) (t : Tail) (c : StreamChunk)
    (hc : c ∈ openAILoop dec lines t) (herr : c.error.isSome = true) :
    (openAILoop dec lines t).getLast? = some c := by
  unfold openAILoop at hc ⊢
  rcases hq : openAIRun dec lines with ⟨cs, early⟩
  rw [hq] at hc
  cases early with
  | true =>
    simp only [if_true] at hc ⊢
    have := openAIRun_err dec lines c (by rw [hq]; exact hc) herr
    rw [hq] at this
    exact this.1
  | false =>
    cases t with
    | eof =>
      simp only [Bool.false_eq_true, if_false] at hc ⊢
      have := openAIRun_err dec lines c (by rw [hq]; exact hc) herr
      rw [hq] at this
      simp at this
    | rerr e =>
      simp only [Bool.false_eq_true, if_false] at hc ⊢
      simp only [List.mem_append] at hc
      cases hc with
      | inl hin =>
        have := openAIRun_err dec lines c (by rw [hq]; exact hin) herr
        rw [hq] at this
        simp at this
      | inr hin =>
        simp at hin
        simp [hin]

/- ### Validation characterization (message.go) -/

theorem validateLoop_tail (msgs : List Message) (ss us : Bool) (i : Nat)
    (hi : 0 < i) :
    validateLoop msgs i ss us = none ↔
      ((∀ m ∈ msgs, m.role = UserRole ∨ m.role = AgentRole) ∧
        (us = true ∨ msgs ≠ [])) := by
  induction msgs generalizing ss us i with
  | nil =>
    cases us with
    | true => simp [validateLoop]
    | false => simp [validateLoop]
  | cons m rest ih =>
    by_cases hv : m.role = SystemRole ∨ m.role = UserRole ∨ m.role = AgentRole
    · by_cases hs : m.role = SystemRole
      · have hnua : ¬ (m.role = UserRole ∨ m.role = AgentRole) := by
          rw [hs]
          simp [SystemRole, UserRole, AgentRole]
        have hstep : validateLoop (m :: rest) i ss us =
            some "system message must be first in the chain" := by
          simp only [validateLoop]
          rw [if_neg (not_not_intro hv), if_pos hs, if_pos (show i > 0 from hi)]
        rw [hstep]
        constructor
        · intro hcon
          simp at hcon
        · intro hcon
          exact absurd (hcon.1 m (by simp)) hnua
      · have hua : m.role = UserRole ∨ m.role = AgentRole := by
          rcases hv with h | h | h
          · exact absurd h hs
          · exact Or.inl h
          · exact Or.inr h
        have hstep : validateLoop (m :: rest) i ss us =
            validateLoop rest (i + 1) ss true := by
          simp only [validateLoop]
          rw [if_neg (not_not_intro hv), if_neg hs]
        rw [hstep, ih ss true (i + 1) (by omega)]
        constructor
        · intro hcon
          refine ⟨?_, Or.inr (by simp)⟩
          intro x hx
          rcases List.mem_cons.mp hx with hx | hx
          · rw [hx]; exact hua
          · exact hcon.1 x hx
        · intro hcon
          refine ⟨fun x hx => hcon.1 x (List.mem_cons_of_mem m hx), Or.inl rfl⟩
    · have hstep : validateLoop (m :: rest) i ss us = some "invalid role" := by
        simp only [validateLoop]
        rw [if_pos hv]
      rw [hstep]
      constructor
      · intro hcon
        simp at hcon
      · intro hcon
        have hm := hcon.1 m (by simp)
        rcases hm with h | h
        · exact absurd (Or.inr (Or.inl h)) hv
        · exact absurd (Or.inr (Or.inr h)) hv

/-- Well-formedness of a chain as `validateMessages` decides it: the head
has a valid role, every later message is user/agent, and a system head is
followed by at least one message. -/
def chainOK : List Message → Prop
  | [] => False
  | m :: rest =>
    (m.role = SystemRole ∨ m.role = UserRole ∨ m.role = AgentRole) ∧
      (∀ x ∈ rest, x.role = UserRole ∨ x.role = AgentRole) ∧
      (m.role = SystemRole → rest ≠ [])

theorem validateMessages_none_iff (msgs : List Message) :
    validateMessages msgs = none ↔ chainOK msgs := by
  cases msgs with
  | nil => simp [validateMessages, chainOK]
  | cons m rest =>
    have hv0 : validateMessages (m :: rest) = validateLoop (m :: rest) 0 false false := by
      simp [validateMessages]
    rw [hv0]
    by_cases hv : m.role = SystemRole ∨ m.role = UserRole ∨ m.role = AgentRole
    · by_cases hs : m.role = SystemRole
      · have hstep : validateLoop (m :: rest) 0 false false =
            validateLoop rest 1 true false := by
          simp only [validateLoop]
          rw [if_neg (not_not_intro hv), if_pos hs,
            if_neg (show ¬ ((0 : Nat) > 0) by omega),
            if_neg (show ¬ (false = true) by simp)]
        rw [hstep, validateLoop_tail rest true false 1 (by omega)]
        simp only [chainOK, hv, true_and, Bool.false_eq_true, false_or]
        constructor
        · intro hcon
          exact ⟨hcon.1, fun _ => hcon.2⟩
        · intro hcon
          exact ⟨hcon.1, hcon.2 hs⟩
      · have hstep : validateLoop (m :: rest) 0 false false =
            validateLoop rest 1 false true := by
          simp only [validateLoop]
          rw [if_neg (not_not_intro hv), if_neg hs]
        rw [hstep, validateLoop_tail rest false true 1 (by omega)]
        simp only [chainOK, hv, true_and]
        constructor
        · intro hcon
          exact ⟨hcon.1, fun hsys => absurd hsys hs⟩
        · intro hcon
          exact ⟨hcon.1, by simp⟩
    · have hstep : validateLoop (m :: rest) 0 false false = some "invalid role" := by
        simp only [validateLoop]
        rw [if_pos hv]
      rw [hstep]
      simp only [chainOK]
      constructor
      · intro hcon
        simp at hcon
      · intro hcon
        exact absurd hcon.1 hv

/-- The claim's error condition for a message chain: empty, a role other
than system/user/agent, a system message not in first position, more
than one system message, or no non-system message. -/
def chainInvalid (msgs : List Message) : Prop :=
  msgs = [] ∨
    (∃ m ∈ msgs, ¬ (m.role = SystemRole ∨ m.role = UserRole ∨ m.role = AgentRole)) ∨
    (∃ m ∈ msgs.tail, m.role = SystemRole) ∨
    1 < msgs.countP (fun m => m.role == SystemRole) ∨
    (∀ m ∈ msgs, m.role = SystemRole)

theorem chainOK_iff_not_chainInvalid (msgs : List Message) :
    chainOK msgs ↔ ¬ chainInvalid msgs := by
  cases msgs with
  | nil => simp [chainOK, chainInvalid]
  | cons m rest =>
    have hsu : SystemRole ≠ UserRole := by decide
    have hsa : SystemRole ≠ AgentRole := by decide
    constructor
    · rintro ⟨hvalid, htail, hsysne⟩ hbad
      rcases hbad with hbad | hbad | hbad | hbad | hbad
      · simp at hbad
      · rcases hbad with ⟨x, hx, hxinv⟩
        rcases List.mem_cons.mp hx with hx | hx
        · rw [hx] at hxinv
          exact hxinv hvalid
        · rcases htail x hx with h | h
          · exact hxinv (Or.inr (Or.inl h))
          · exact hxinv (Or.inr (Or.inr h))
      · rcases hbad with ⟨x, hx, hxsys⟩
        simp only [List.tail_cons] at hx
        rcases htail x hx with h | h
        · rw [h] at hxsys
          exact hsu hxsys.symm
        · rw [h] at hxsys
          exact hsa hxsys.symm
      · have hz : rest.countP (fun x => x.role == SystemRole) = 0 := by
          rw [List.countP_eq_zero]
          intro x hx
          rcases htail x hx with h | h
          · simp [h]
            exact fun hc => hsu hc.symm
          · simp [h]
            exact fun hc => hsa hc.symm
        rw [List.countP_cons, hz] at hbad
        by_cases hm : m.role = SystemRole
        · simp [hm] at hbad
        · simp [hm] at hbad
      · have hmsys : m.role = SystemRole := hbad m (by simp)
        have hrne := hsysne hmsys
        cases rest with
        | nil => exact hrne rfl
        | cons x xs =>
          have hxsys : x.role = SystemRole := hbad x (by simp)
          rcases htail x (by simp) with h | h
          · rw [h] at hxsys
            exact hsu hxsys.symm
          · rw [h] at hxsys
            exact hsa hxsys.symm
    · intro hnb
      simp only [chainInvalid, not_or] at hnb
      obtain ⟨-, hninv, hnsystail, -, hnall⟩ := hnb
      have hvalid : ∀ x ∈ (m :: rest),
          x.role = SystemRole ∨ x.role = UserRole ∨ x.role = AgentRole := by
        intro x hx
        by_contra hc
        push_neg at hc
        exact hninv ⟨x, hx, hc⟩
      have hnsystl : ∀ x ∈ rest, x.role ≠ SystemRole := by
        intro x hx hc
        exact hnsystail ⟨x, by simpa using hx, hc⟩
      have htail : ∀ x ∈ rest, x.role = UserRole ∨ x.role = AgentRole := by
        intro x hx
        rcases hvalid x (List.mem_cons_of_mem m hx) with h | h | h
        · exact absurd h (hnsystl x hx)
        · exact Or.inl h
        · exact Or.inr h
      refine ⟨hvalid m (by simp), htail, ?_⟩
      intro hmsys hrnil
      push_neg at hnall
      obtain ⟨x, hx, hxnsys⟩ := hnall
      rcases List.mem_cons.mp hx with hx | hx
      · rw [hx] at hxnsys
        exact hxnsys hmsys
      · rw [hrnil] at hx
        simp at hx

/- ### Auxiliary definitions used in claim statements -/

/-- Whether an `Except` is an error. -/
def isErrorE {ε α : Type} : Except ε α → Bool
  | .error _ => true
  | .ok _ => false

/-- The chunks sent after the first error chunk of a stream. -/
def afterFirstErr : List StreamChunk → List StreamChunk
  | [] => []
  | c :: cs => if c.error.isSome then cs else afterFirstErr cs

/-- Modelled from the amended spec wording for the candidate-stream
variant: one text chunk carrying the text of the first part of the first
candidate when that text is non-empty (at most one text chunk per
frame), followed by a metadata chunk when usage totals are present. -/
def geminiClaimChunks (r : GeminiStreamRespW) : List StreamChunk :=
  (match (r.candidates.head?.bind fun c => c.parts.head?) with
   | some p => if p.text ≠ "" then [{ data := p.text }] else []
   | none => []) ++
  (match r.usageMetadata with
   | some u => [geminiMeta u]
   | none => [])

/-- Number of non-empty text parts across all candidates of a frame: the
per-frame text-chunk count asserted by the original claim wording. -/
def geminiSpecTextCount (r : GeminiStreamRespW) : Nat :=
  (r.candidates.map (fun c => (c.parts.filter (fun p => p.text != "")).length)).sum

/- ### Claims -/

/-- C1: for every streaming call (OpenAI, Anthropic, Gemini variants),
the producer's channel trace is some sends followed by exactly one
close — the channel is closed exactly once, after every chunk has been
sent, and no chunk is sent after the close; and on a terminal fault
(transport read error, or a handler error for the variants that
propagate one) the error chunk is sent immediately before the close
(for the OpenAI loop: any error chunk it sends is the last chunk). -/
theorem spec_C1 :
    (∀ (msgs : List (SSEMessageOf AnthropicWire)) (t : Tail),
        closesOnceAfterAll (anthropicProducer msgs t) ∧
        ((sseDrive anthropicHandler msgs t ((0 : Int), (0 : Int))).2.isSome = true →
          endsWithErrSend (anthropicProducer msgs t))) ∧
    (∀ (msgs : List (SSEMessageOf GeminiStreamRespW)) (t : Tail),
        closesOnceAfterAll (geminiProducer msgs t) ∧
        ((sseDrive geminiHandler msgs t ()).2.isSome = true →
          endsWithErrSend (geminiProducer msgs t))) ∧
    (∀ (dec : List Nat → Option OpenAIStreamRespW) (lines : List (List Nat)) (t : Tail),
        closesOnceAfterAll (openAIProducer dec lines t) ∧
        (∀ c ∈ openAILoop dec lines t, c.error.isSome = true →
          (openAILoop dec lines t).getLast? = some c)) := by
  refine ⟨?_, ?_, ?_⟩
  · intro msgs t
    exact ⟨producerOf_shape _, fun h => producerOf_err h⟩
  · intro msgs t
    exact ⟨producerOf_shape _, fun h => producerOf_err h⟩
  · intro dec lines t
    refine ⟨⟨openAILoop dec lines t, rfl⟩, ?_⟩
    intro c hc herr
    exact openAILoop_err_last dec lines t c hc herr

theorem spec_C1_witness :
    endsWithErrSend (anthropicProducer [] (Tail.rerr GoErr.ioFailure)) :=
  (spec_C1.1 [] (Tail.rerr GoErr.ioFailure)).2 (by decide)

/-- C2: the SSE frame assembler produces the same sequence of frames for
every splitting of the body bytes into read chunks as for the whole body
read as one chunk (chunk-boundary independence). -/
theorem spec_C2 (chunks : List (List Nat)) :
    sseFramesChunked chunks = sseFramesChunked [chunks.flatten] := by
  unfold sseFramesChunked
  rw [sseLoopC_eq_sseLoop, sseLoopC_eq_sseLoop]
  simp [CReader.toBytes]

/-- C3 (amended): a malformed JSON payload on a frame the translator
recognizes as needing parsing yields exactly one error chunk and stops
the stream for the Anthropic and OpenAI variants; for the Gemini variant
it yields one error chunk per malformed frame but the loop continues
processing subsequent frames (google.go's handler always returns nil). -/
theorem spec_C3_amended :
    (∀ (pre suf : List (SSEMessageOf AnthropicWire)) (ev : String) (t : Tail)
        (cs : List StreamChunk) (st : Int × Int),
      sseRun anthropicHandler pre ((0 : Int), (0 : Int)) = (cs, .ok st) →
      (ev = "message_start" ∨ ev = "content_block_delta" ∨ ev = "message_delta") →
      anthropicProducer (pre ++ ⟨ev, Payload.malformed⟩ :: suf) t =
        cs.map ChanEv.send ++
          [ChanEv.send { error := some (.sseStream (.jsonParse ev)) }, ChanEv.close]) ∧
    (∀ (dec : List Nat → Option OpenAIStreamRespW) (pre suf : List (List Nat))
        (d : List Nat) (t : Tail),
      (openAIRun dec pre).2 = false →
      trimSpaceB (dataPfx ++ d) = dataPfx ++ d →
      d ≠ doneB →
      dec d = none →
      openAILoop dec (pre ++ (dataPfx ++ d) :: suf) t =
        (openAIRun dec pre).1 ++ [{ error := some (.jsonParse "openai") }]) ∧
    (∀ (pre suf : List (SSEMessageOf GeminiStreamRespW)) (ev : String) (t : Tail),
      sseDrive geminiHandler (pre ++ ⟨ev, Payload.malformed⟩ :: suf) t () =
        ((pre.map processGeminiSSEMessage).flatten ++
            [{ error := some (.jsonParse "gemini") }] ++
            (suf.map processGeminiSSEMessage).flatten,
          match t with
          | .eof => none
          | .rerr e => some (.readError e))) := by
  refine ⟨?_, ?_, ?_⟩
  · intro pre suf ev t cs st hrun hev
    have hm : anthropicHandler ⟨ev, Payload.malformed⟩ st =
        .error (.jsonParse ev) := by
      rcases hev with h | h | h <;> subst h <;> rfl
    have hcons : sseRun anthropicHandler (⟨ev, Payload.malformed⟩ :: suf) st =
        ([], .error (.jsonParse ev)) := by
      simp [sseRun, hm]
    have htot := sseRun_append_ok hrun (⟨ev, Payload.malformed⟩ :: suf)
    rw [hcons] at htot
    simp only [List.append_nil] at htot
    unfold anthropicProducer sseDrive
    rw [htot]
    simp [producerOf]
  · intro dec pre suf d t h2f htrim hnd hdec
    induction pre with
    | nil =>
      have hne : ¬ trimSpaceB (dataPfx ++ d) = [] := by
        rw [htrim]
        simp [dataPfx]
      have hst : startsB dataPfx (trimSpaceB (dataPfx ++ d)) = true := by
        rw [htrim]
        exact startsB_self_append dataPfx d
      have hdrop : (trimSpaceB (dataPfx ++ d)).drop dataPfx.length = d := by
        rw [htrim]
        exact List.drop_left dataPfx d
      simp only [List.nil_append]
      rw [openAILoop_cons, if_neg hne, if_neg (by simp [hst]), if_neg (by rw [hdrop]; exact hnd)]
      rw [hdrop, hdec]
      simp [openAIRun]
    | cons l ls ih =>
      by_cases h1 : trimSpaceB l = []
      · have h2f' : (openAIRun dec ls).2 = false := by
          simpa [openAIRun, h1] using h2f
        simp only [List.cons_append]
        rw [openAILoop_cons, if_pos h1]
        rw [ih h2f']
        have : (openAIRun dec (l :: ls)).1 = (openAIRun dec ls).1 := by
          simp [openAIRun, h1]
        rw [this]
      · by_cases h2 : startsB dataPfx (trimSpaceB l)
        · by_cases h3 : (trimSpaceB l).drop dataPfx.length = doneB
          · exfalso
            have : (openAIRun dec (l :: ls)).2 = true := by
              simp [openAIRun, h1, h2, h3]
            rw [h2f] at this
            cases this
          · cases hd : dec ((trimSpaceB l).drop dataPfx.length) with
            | none =>
              exfalso
              have : (openAIRun dec (l :: ls)).2 = true := by
                simp [openAIRun, h1, h2, h3, hd]
              rw [h2f] at this
              cases this
            | some resp =>
              have h2f' : (openAIRun dec ls).2 = false := by
                have : (openAIRun dec (l :: ls)).2 = (openAIRun dec ls).2 := by
                  simp [openAIRun, h1, h2, h3, hd]
                rw [← this]
                exact h2f
              simp only [List.cons_append]
              rw [openAILoop_cons, if_neg h1, if_neg (by simp [h2]), if_neg h3]
              rw [hd]
              rw [ih h2f']
              have : (openAIRun dec (l :: ls)).1 =
                  openAIEmit resp ++ (openAIRun dec ls).1 := by
                simp [openAIRun, h1, h2, h3, hd]
              rw [this, List.append_assoc]
        · have h2f' : (openAIRun dec ls).2 = false := by
            simpa [openAIRun, h1, h2] using h2f
          simp only [List.cons_append]
          rw [openAILoop_cons, if_neg h1, if_pos (by simp [h2])]
          rw [ih h2f']
          have : (openAIRun dec (l :: ls)).1 = (openAIRun dec ls).1 := by
            simp [openAIRun, h1, h2]
          rw [this]
  · intro pre suf ev t
    unfold sseDrive
    rw [sseRun_gemini]
    have hmal : processGeminiSSEMessage ⟨ev, Payload.malformed⟩ =
        [{ error := some (.jsonParse "gemini") }] := rfl
    simp only [List.map_append, List.map_cons, List.flatten_append,
      List.flatten_cons, hmal]
    cases t with
    | eof => simp
    | rerr e => simp

theorem spec_C3_witness :
    anthropicProducer [⟨"message_start", Payload.malformed⟩] Tail.eof =
      [ChanEv.send { error := some (.sseStream (.jsonParse "message_start")) },
        ChanEv.close] := by
  have h := spec_C3_amended.1 [] [] "message_start" Tail.eof []
    ((0 : Int), (0 : Int)) (by rfl) (Or.inl rfl)
  simpa using h

/-- C3 (counterexample): for the Gemini variant a malformed frame does
not terminate the stream — a frame arriving after the malformed one
still produces a chunk, so chunks are sent after the error chunk. -/
theorem spec_C3_cex :
    (sseDrive geminiHandler
        [⟨"", Payload.malformed⟩,
         ⟨"", Payload.obj { candidates := [⟨[⟨"x"⟩]⟩] }⟩]
        Tail.eof ()).1 =
      [{ error := some (.jsonParse "gemini") }, { data := "x" }] ∧
    afterFirstErr
        (sseDrive geminiHandler
          [⟨"", Payload.malformed⟩,
           ⟨"", Payload.obj { candidates := [⟨[⟨"x"⟩]⟩] }⟩]
          Tail.eof ()).1 ≠ [] := by
  refine ⟨by decide, by decide⟩

/-- C4: feeding the Anthropic translator the frame sequence
message_start (input 10, output 0), content_block_delta (text "hi"),
message_delta (output 3), message_stop on a cleanly ending stream yields
exactly one text chunk "hi", one metadata chunk with input_tokens 10 and
output_tokens 3, and then the close, with no error chunk. -/
theorem spec_C4 :
    anthropicProducer
      [⟨"message_start", Payload.obj { messageUsageInput := 10, messageUsageOutput := 0 }⟩,
       ⟨"content_block_delta", Payload.obj { deltaType := "text_delta", deltaText := "hi" }⟩,
       ⟨"message_delta", Payload.obj { usageOutputTokens := some 3 }⟩,
       ⟨"message_stop", Payload.obj {}⟩]
      Tail.eof =
      [ChanEv.send { data := "hi" }, ChanEv.send (anthropicMeta 10 3),
        ChanEv.close] := by
  decide

/-- C5 (amended): processing a message_stop frame emits exactly one
metadata chunk carrying the accumulator's current input/output token
counts, but does not terminate the stream: the frames after it are
still processed with the same accumulator state. -/
theorem spec_C5_amended (d : Payload AnthropicWire) (hd : d ≠ Payload.empty)
    (suf : List (SSEMessageOf AnthropicWire)) (s : Int × Int) :
    sseRun anthropicHandler (⟨"message_stop", d⟩ :: suf) s =
      (anthropicMeta s.1 s.2 :: (sseRun anthropicHandler suf s).1,
        (sseRun anthropicHandler suf s).2) := by
  cases d with
  | empty => exact absurd rfl hd
  | malformed =>
    simp [sseRun, anthropicHandler, processAnthropicSSEMessage]
  | obj j =>
    simp [sseRun, anthropicHandler, processAnthropicSSEMessage]

theorem spec_C5_witness :
    sseRun anthropicHandler [⟨"message_stop", Payload.obj {}⟩] ((0 : Int), (0 : Int)) =
      (anthropicMeta 0 0 :: (sseRun anthropicHandler [] ((0 : Int), (0 : Int))).1,
        (sseRun anthropicHandler [] ((0 : Int), (0 : Int))).2) :=
  spec_C5_amended (Payload.obj {}) (by simp) [] ((0 : Int), (0 : Int))

/-- C5 (counterexample): a content_block_delta frame arriving after
message_stop is still processed and produces a text chunk, so the chunk
list is not just the metadata chunk the original claim predicts. -/
theorem spec_C5_cex :
    (sseDrive anthropicHandler
        [⟨"message_stop", Payload.obj {}⟩,
         ⟨"content_block_delta", Payload.obj { deltaType := "text_delta", deltaText := "x" }⟩]
        Tail.eof ((0 : Int), (0 : Int))).1 =
      [anthropicMeta 0 0, { data := "x" }] ∧
    (sseDrive anthropicHandler
        [⟨"message_stop", Payload.obj {}⟩,
         ⟨"content_block_delta", Payload.obj { deltaType := "text_delta", deltaText := "x" }⟩]
        Tail.eof ((0 : Int), (0 : Int))).1 ≠ [anthropicMeta 0 0] := by
  refine ⟨by decide, by decide⟩

/-- C6: in the OpenAI-compatible loop a `data: [DONE]` line terminates
the read loop without emitting any chunk for that line; the channel then
closes with no error chunk, and no lines after the sentinel are
processed — the trace equals that of the preceding lines on a cleanly
ending stream. -/
theorem spec_C6 (dec : List Nat → Option OpenAIStreamRespW)
    (pre suf : List (List Nat)) (t : Tail) :
    openAILoop dec (pre ++ (dataPfx ++ doneB) :: suf) t =
      openAILoop dec pre Tail.eof := by
  induction pre with
  | nil =>
    simp only [List.nil_append]
    rw [openAILoop_cons, if_neg (by decide), if_neg (by decide), if_pos (by decide)]
    rfl
  | cons l ls ih =>
    simp only [List.cons_append]
    by_cases h1 : trimSpaceB l = []
    · rw [openAILoop_cons, if_pos h1, ih, openAILoop_cons, if_pos h1]
    · by_cases h2 : startsB dataPfx (trimSpaceB l)
      · by_cases h3 : (trimSpaceB l).drop dataPfx.length = doneB
        · rw [openAILoop_cons, if_neg h1, if_neg (by simp [h2]), if_pos h3,
            openAILoop_cons, if_neg h1, if_neg (by simp [h2]), if_pos h3]
        · cases hd : dec ((trimSpaceB l).drop dataPfx.length) with
          | none =>
            rw [openAILoop_cons, if_neg h1, if_neg (by simp [h2]), if_neg h3, hd,
              openAILoop_cons, if_neg h1, if_neg (by simp [h2]), if_neg h3, hd]
          | some resp =>
            rw [openAILoop_cons, if_neg h1, if_neg (by simp [h2]), if_neg h3, hd,
              openAILoop_cons, if_neg h1, if_neg (by simp [h2]), if_neg h3, hd, ih]
      · rw [openAILoop_cons, if_neg h1, if_pos (by simp [h2]), ih,
          openAILoop_cons, if_neg h1, if_pos (by simp [h2])]

/-- C7 (amended): for the Gemini (candidate-stream) translator a
well-formed frame yields at most one text chunk — the text of the first
part of the first candidate, when non-empty — followed by a metadata
chunk whenever usage totals are present, text first then metadata (so a
frame with both yields exactly two chunks in that order). -/
theorem spec_C7_amended (ev : String) (r : GeminiStreamRespW) :
    processGeminiSSEMessage ⟨ev, Payload.obj r⟩ = geminiClaimChunks r := by
  rcases r with ⟨cands, usage⟩
  cases cands with
  | nil => cases usage <;> rfl
  | cons c cs =>
    rcases c with ⟨parts⟩
    cases parts with
    | nil => cases usage <;> rfl
    | cons p ps => cases usage <;> rfl

/-- C7 (counterexample): a frame whose first candidate has two non-empty
text parts yields only one text chunk (the first part), not one chunk
per non-empty part as the original claim states. -/
theorem spec_C7_cex :
    processGeminiSSEMessage
        ⟨"", Payload.obj { candidates := [⟨[⟨"a"⟩, ⟨"b"⟩]⟩] }⟩ =
      [{ data := "a" }] ∧
    (processGeminiSSEMessage
        ⟨"", Payload.obj { candidates := [⟨[⟨"a"⟩, ⟨"b"⟩]⟩] }⟩).length ≠
      geminiSpecTextCount { candidates := [⟨[⟨"a"⟩, ⟨"b"⟩]⟩] } := by
  refine ⟨by decide, by decide⟩

/-- C8 (amended): the assembler discards the bytes of a final
unterminated line at end of input — appending newline-free bytes to a
stream never changes the emitted frames.  (Data already buffered from
newline-terminated `data:` lines is still flushed as one final frame at
end of input, as `sseFrames` shows on streams without a trailing blank
line.) -/
theorem spec_C8_amended {t : List Nat} (ht : ¬ 10 ∈ t) (s : List Nat) :
    sseFrames (s ++ t) = sseFrames s := by
  unfold sseFrames
  exact sseLoop_drop_tail ht s [] []

theorem spec_C8_witness :
    ¬ (10 : Nat) ∈ [100, 97, 116, 97, 58, 32, 98] ∧
      sseFrames ([100, 97, 116, 97, 58, 32, 97, 10] ++
          [100, 97, 116, 97, 58, 32, 98]) =
        sseFrames [100, 97, 116, 97, 58, 32, 97, 10] :=
  ⟨by decide, spec_C8_amended (by decide) [100, 97, 116, 97, 58, 32, 97, 10]⟩

/-- C8 (counterexample): the byte stream "data: a\ndata: b" (no trailing
newline) yields the final frame with data "a" — the unterminated
"data: b" line is discarded — while the same stream with a trailing
newline yields the frame with data "ab": the final frames differ. -/
theorem spec_C8_cex :
    sseFrames [100, 97, 116, 97, 58, 32, 97, 10, 100, 97, 116, 97, 58, 32, 98] =
      [⟨[], [97]⟩] ∧
    sseFrames [100, 97, 116, 97, 58, 32, 97, 10, 100, 97, 116, 97, 58, 32, 98, 10] =
      [⟨[], [97, 98]⟩] ∧
    sseFrames [100, 97, 116, 97, 58, 32, 97, 10, 100, 97, 116, 97, 58, 32, 98] ≠
      sseFrames [100, 97, 116, 97, 58, 32, 97, 10, 100, 97, 116, 97, 58, 32, 98, 10] := by
  have h1 : splitNL [100, 97, 116, 97, 58, 32, 97, 10, 100, 97, 116, 97, 58, 32, 98] =
      ([100, 97, 116, 97, 58, 32, 97, 10], some [100, 97, 116, 97, 58, 32, 98]) := by
    decide
  have h2 : splitNL [100, 97, 116, 97, 58, 32, 98] =
      ([100, 97, 116, 97, 58, 32, 98], none) := by decide
  have hline1 : sseLine [100, 97, 116, 97, 58, 32, 97, 10] [] [] =
      ([], [97], []) := by decide
  have e1 : sseFrames [100, 97, 116, 97, 58, 32, 97, 10, 100, 97, 116, 97, 58, 32, 98] =
      [⟨[], [97]⟩] := by
    unfold sseFrames
    rw [sseLoop_eq_of_some h1, hline1]
    dsimp only
    rw [sseLoop_eq_of_none h2]
    decide
  have h3 : splitNL [100, 97, 116, 97, 58, 32, 97, 10, 100, 97, 116, 97, 58, 32, 98, 10] =
      ([100, 97, 116, 97, 58, 32, 97, 10], some [100, 97, 116, 97, 58, 32, 98, 10]) := by
    decide
  have h4 : splitNL [100, 97, 116, 97, 58, 32, 98, 10] =
      ([100, 97, 116, 97, 58, 32, 98, 10], some []) := by decide
  have hline2 : sseLine [100, 97, 116, 97, 58, 32, 98, 10] [] [97] =
      ([], [97, 98], []) := by decide
  have h5 : splitNL ([] : List Nat) = ([], none) := by decide
  have e2 : sseFrames [100, 97, 116, 97, 58, 32, 97, 10, 100, 97, 116, 97, 58, 32, 98, 10] =
      [⟨[], [97, 98]⟩] := by
    unfold sseFrames
    rw [sseLoop_eq_of_some h3, hline1]
    dsimp only
    rw [sseLoop_eq_of_some h4, hline2]
    dsimp only
    rw [sseLoop_eq_of_none h5]
    decide
  refine ⟨e1, e2, ?_⟩
  rw [e1, e2]
  decide

/-- C9 (amended): when the supplying context is canceled (or any other
transport fault occurs) before the stream completes, the next read
returns a non-EOF error; every producer then sends one error chunk
wrapping that error and closes the channel afterwards — cancellation IS
reported as an error chunk on the channel. -/
theorem spec_C9_amended :
    (∀ (msgs : List (SSEMessageOf AnthropicWire)) (cs : List StreamChunk)
        (st : Int × Int) (e : GoErr),
      sseRun anthropicHandler msgs ((0 : Int), (0 : Int)) = (cs, .ok st) →
      anthropicProducer msgs (Tail.rerr e) =
        cs.map ChanEv.send ++
          [ChanEv.send { error := some (.sseStream (.readError e)) }, ChanEv.close]) ∧
    (∀ (msgs : List (SSEMessageOf GeminiStreamRespW)) (e : GoErr),
      geminiProducer msgs (Tail.rerr e) =
        ((msgs.map processGeminiSSEMessage).flatten).map ChanEv.send ++
          [ChanEv.send { error := some (.sseStream (.readError e)) }, ChanEv.close]) ∧
    (∀ (dec : List Nat → Option OpenAIStreamRespW) (lines : List (List Nat)) (e : GoErr),
      (openAIRun dec lines).2 = false →
      openAIProducer dec lines (Tail.rerr e) =
        (openAIRun dec lines).1.map ChanEv.send ++
          [ChanEv.send { error := some (.readError e) }, ChanEv.close]) := by
  refine ⟨?_, ?_, ?_⟩
  · intro msgs cs st e hrun
    unfold anthropicProducer sseDrive
    rw [hrun]
    simp [producerOf]
  · intro msgs e
    unfold geminiProducer sseDrive
    rw [sseRun_gemini]
    simp [producerOf]
  · intro dec lines e h2f
    unfold openAIProducer openAILoop
    simp [h2f]

/-- C9 (counterexample): canceling the context surfaces as a read error
and the Anthropic producer sends an error chunk before closing, so the
channel does not close without a further chunk as the claim states. -/
theorem spec_C9_cex :
    anthropicProducer [] (Tail.rerr GoErr.ctxCanceled) =
      [ChanEv.send { error := some (.sseStream (.readError .ctxCanceled)) },
        ChanEv.close] ∧
    anthropicProducer [] (Tail.rerr GoErr.ctxCanceled) ≠ [ChanEv.close] := by
  refine ⟨by decide, by decide⟩

theorem spec_C9_witness :
    geminiProducer [] (Tail.rerr GoErr.ctxCanceled) =
      (([] : List (SSEMessageOf GeminiStreamRespW)).map
          processGeminiSSEMessage).flatten.map ChanEv.send ++
        [ChanEv.send { error := some (.sseStream (.readError .ctxCanceled)) },
          ChanEv.close] :=
  spec_C9_amended.2.1 [] GoErr.ctxCanceled

/-- C10: for every message chain, request preparation for a chat
provider fails before any HTTP request is made if and only if the chain
is empty, contains an unknown role, contains a system message not in
first position or more than one system message, or contains no
non-system message; equivalently `validateMessages` reports an error
exactly on those chains. -/
theorem spec_C10 (msgs : List Message) (streaming : Bool) (cfg : CallConfig) :
    ((validateMessages msgs).isSome = true ↔ chainInvalid msgs) ∧
    (isErrorE (prepareOpenAIRequest msgs streaming cfg) = true ↔ chainInvalid msgs) := by
  have hiff : (validateMessages msgs).isSome = true ↔ chainInvalid msgs := by
    constructor
    · intro hsome
      by_contra hcon
      have hok : chainOK msgs := (chainOK_iff_not_chainInvalid msgs).2 hcon
      have hnone := (validateMessages_none_iff msgs).2 hok
      rw [hnone] at hsome
      simp at hsome
    · intro hinv
      cases hv : validateMessages msgs with
      | some e => simp
      | none =>
        have hok := (validateMessages_none_iff msgs).1 hv
        exact absurd hinv ((chainOK_iff_not_chainInvalid msgs).1 hok)
  refine ⟨hiff, ?_⟩
  rw [← hiff]
  cases hv : validateMessages msgs with
  | none => simp [prepareOpenAIRequest, hv, isErrorE]
  | some e => simp [prepareOpenAIRequest, hv, isErrorE]

theorem spec_C10_witness :
    isErrorE (prepareOpenAIRequest [] true {}) = true :=
  (spec_C10 [] true {}).2.mpr (Or.inl rfl)
